import Mathlib

set_option maxRecDepth 4000

/-!
Shallow embedding of the Luen/quillbot-api repository (src/index.js and
src/lib/utils.js), covering the components the claims are about:

* the Segment Splitter: `truncate` (src/index.js lines 5-12) and the
  word-count splitting loop at the top of `quillbot` (lines 644-660);
* the Resilient Operation Executor `safePageOperation` (lines 57-94,
  identical logic in src/lib/utils.js lines 26-64);
* the Selector Resolver loops `getInputSelector` (lines 97-156) and
  `getButtonSelector` (lines 342-379);
* the Text Injection Engine verification step of `inputString`
  (lines 252-339, identical condition in src/lib/utils.js lines 352-445);
* the top-level control flow of `quillbot` (lines 843-945).

JavaScript strings are modelled as `List Char` (the sources only handle
BMP/ASCII content, where JS UTF-16 length agrees with character count).
Stateful browser interaction is modelled by passing explicit page/DOM
oracles; thrown JS exceptions become `Option`/`Except` results.
-/

namespace Quillbot

/-- JS `\w` character class: `[A-Za-z0-9_]`. -/
def isWordChar (c : Char) : Bool := c.isAlphanum || c == '_'

/-- Characters matched by `[\w']` in the `truncate` regex. -/
def wordOrApos (c : Char) : Bool := isWordChar c || c == '\''

/-- Characters matched by `[^\w\n]` in the `truncate` regex. -/
def sepChar (c : Char) : Bool := !isWordChar c && c != '\n'

/-- Whitespace removed by JS `String.prototype.trim` (ASCII part; the
sources only produce ASCII whitespace at string edges). -/
def isJsWs (c : Char) : Bool :=
  c == ' ' || c == '\t' || c == '\n' || c == '\r' || c == '\x0b' || c == '\x0c'

def trimLeft (l : List Char) : List Char := l.dropWhile isJsWs

def trimRight (l : List Char) : List Char := ((l.reverse).dropWhile isJsWs).reverse

/-- JS `str.trim()`. -/
def jsTrim (l : List Char) : List Char := trimRight (trimLeft l)

/-- Accumulator: current partially-read token, reversed. -/
def tokensAux : List Char → Option (List Char) → List (List Char)
  | [], none => []
  | [], some t => [t.reverse]
  | c :: l, none =>
    if isWordChar c then tokensAux l (some [c]) else tokensAux l none
  | c :: l, some t =>
    if isWordChar c then tokensAux l (some (c :: t))
    else t.reverse :: tokensAux l none

/-- JS `str.match(/(\w+)/g)`: the list of maximal `\w+` runs, in order
(`[]` corresponds to the JS result `null`). -/
def tokens (l : List Char) : List (List Char) := tokensAux l none

def isPrefixOfL : List Char → List Char → Bool
  | [], _ => true
  | _ :: _, [] => false
  | a :: as, b :: bs => a == b && isPrefixOfL as bs

/-- JS `hay.includes(needle)`. -/
def listIncludes (needle : List Char) : List Char → Bool
  | [] => isPrefixOfL needle []
  | c :: rest => isPrefixOfL needle (c :: rest) || listIncludes needle rest

def lastD : List Char → Char → Char
  | [], d => d
  | [c], _ => c
  | _ :: c :: l, d => lastD (c :: l) d

/-- `\b` between a just-consumed character and the rest of the string:
word-ness differs across the boundary (end of string counts as non-word). -/
def bAt (lastc : Char) (l : List Char) : Bool :=
  isWordChar lastc != (match l with | [] => false | c :: _ => isWordChar c)

/-- Greedy backtracking helper: try `f len`, `f (len-1)`, ..., `f 1`. -/
def tryLens (f : Nat → Option (List Char)) : Nat → Option (List Char)
  | 0 => none
  | n+1 => match f (n+1) with | some r => some r | none => tryLens f n

/-- Backtracking matcher for `(?:[^\w\n]+[\w']+){0,reps}\b` after having
consumed a `[\w']+` run ending in `lastc`. Greedy: prefers more
repetitions and longer runs, backtracking (shorter runs, fewer
repetitions) only to satisfy the trailing `\b`, exactly as the JS regex
engine does. Returns the consumed characters. -/
def matchPairs : Nat → Char → List Char → Option (List Char)
  | 0, lastc, l => if bAt lastc l then some [] else none
  | reps+1, lastc, l =>
    let sepRun := l.takeWhile sepChar
    let viaPair := tryLens (fun slen =>
      let l1 := l.drop slen
      let wRun := l1.takeWhile wordOrApos
      tryLens (fun wlen =>
        match matchPairs reps (lastD (wRun.take wlen) 'x') (l1.drop wlen) with
        | some t => some (l.take slen ++ wRun.take wlen ++ t)
        | none => none) wRun.length) sepRun.length
    match viaPair with
    | some r => some r
    | none => if bAt lastc l then some [] else none

/-- Match `[\w']+(?:[^\w\n]+[\w']+){0,n}\b` at the start of `l` (which in
use starts at a word character preceded by a non-word position, so the
leading `\b` of the regex already holds). -/
def matchFrom (n : Nat) (l : List Char) : Option (List Char) :=
  let run := l.takeWhile wordOrApos
  tryLens (fun wlen =>
    match matchPairs n (lastD (run.take wlen) 'x') (l.drop wlen) with
    | some t => some (run.take wlen ++ t)
    | none => none) run.length

def firstWordIdx : List Char → Option Nat
  | [] => none
  | c :: l => if isWordChar c then some 0 else (firstWordIdx l).map (· + 1)

/-- First match of `new RegExp("\\b[\\w']+(?:[^\\w\\n]+[\\w']+){0,n}\\b", 'g')`
in `s`, i.e. `str.match(regex)[0]` in `truncate`. The leftmost position at
which the regex can match is the first word character of `s` (a `\b`
requires a word character on exactly one side, and `[\w']+` must consume a
first character there), so the search starts at `firstWordIdx`. `none`
corresponds to a `null` JS match result. -/
def firstMatch (n : Nat) (s : List Char) : Option (List Char) :=
  match firstWordIdx s with
  | none => none
  | some k => matchFrom n (s.drop k)

/-- `m.lastIndexOf('.') + 1` clamped at 0, i.e. the JS value of
`subString[0].lastIndexOf('.') + 1` (0 when there is no period). -/
def lastDotSucc : List Char → Nat
  | [] => 0
  | c :: l =>
    let r := lastDotSucc l
    if r > 0 then r + 1 else if c == '.' then 1 else 0

/-- `truncate(str, n)` from src/index.js lines 5-12.  `none` models the
JS `TypeError` thrown by `subString[0]` when `str.match(regex)` is `null`. -/
def truncate (s : List Char) (n : Nat) : Option (List Char) :=
  if s.length ≤ n then some s
  else
    match firstMatch n s with
    | none => none
    | some m => some (m.take (lastDotSucc m))

/-- `const numberOfCharacters = 125` (src/index.js line 644; despite the
name it is used as a word limit). -/
def numberOfCharacters : Nat := 125

/-- Outcome of the splitting prologue of `quillbot` (src/index.js lines
644-660). `typeError` models the `TypeError` thrown when
`str.match(/(\w+)/g)` is `null` (no word characters); `diverges` models
non-termination of the `while` loop. -/
inductive SplitOutcome
  | parts : List (List Char) → SplitOutcome
  | typeError : SplitOutcome
  | diverges : SplitOutcome
  deriving DecidableEq

/-- The body of `while (str.match(/(\w+)/g).length > numberOfCharacters)`
(src/index.js lines 652-656) followed by `parts.push(str.trim())`.
`fuel` only bounds the number of iterations observed: each iteration
either removes `part.length ≥ 1` characters from `str` or (when
`part = ""`) leaves `str` unchanged, in which case every later iteration
repeats the identical state and the JS loop runs forever; hence with
`fuel = str.length + 1` (as used by `splitParts`), `diverges` is reported
exactly when the JS loop does not terminate. -/
def splitLoop : Nat → List Char → List (List Char) → SplitOutcome
  | 0, _, _ => .diverges
  | fuel+1, str, acc =>
    if (tokens str).isEmpty then .typeError
    else if (tokens str).length > numberOfCharacters then
      match truncate str numberOfCharacters with
      | none => .typeError
      | some part0 =>
        let part := jsTrim part0
        splitLoop fuel (str.drop part.length) (acc ++ [part])
    else .parts (acc ++ [jsTrim str])

/-- The Segment Splitter: `let str = text.trim()` and the
`if/while/push` block of src/index.js lines 645-660. -/
def splitParts (text : List Char) : SplitOutcome :=
  let str := jsTrim text
  if (tokens str).isEmpty then .typeError
  else if (tokens str).length > numberOfCharacters then
    splitLoop (str.length + 1) str []
  else .parts [str]

/-! ### Resilient Operation Executor (`safePageOperation`) -/

/-- A thrown JS `Error`, identified by its `message`. -/
structure JsError where
  message : List Char
  deriving DecidableEq

/-- The transient-failure classifier of src/index.js lines 65-69: the error
message includes one of the five fixed substrings. -/
def isDetachedError (e : JsError) : Bool :=
  listIncludes ("detached".toList) e.message ||
  listIncludes ("Target closed".toList) e.message ||
  listIncludes ("Session closed".toList) e.message ||
  listIncludes ("Protocol error".toList) e.message ||
  listIncludes ("Navigating frame".toList) e.message

/-- Observable behaviour of one `safePageOperation` call: the returned
value or thrown error, the number of times `operation()` was invoked, and
the waits (in ms) performed before each retry, in order. -/
structure SpoTrace (α : Type) where
  result : Except JsError α
  attempts : Nat
  waits : List Nat

/-- The `for (let i = 0; i < retries; i++)` loop of src/index.js lines
59-91.  `op i` is the outcome of the `i`-th invocation of `operation()`.
`pageRef` models the optional page handle: `none` is JS `null`,
`some alive` a page whose `url()` probe succeeds iff `alive` (the probe
happens after the wait; a failed probe throws
`'Page is no longer accessible'`).  `rem` is the number of remaining
iterations (`retries - i`), `lastErr` the JS `lastError` variable; when
the loop ends without returning, line 93 throws
`lastError || new Error('Operation failed after retries')`. -/
def spoAux (op : Nat → Except JsError α) (retries : Nat) (pageRef : Option Bool) :
    Nat → Nat → Option JsError → SpoTrace α
  | _, 0, lastErr =>
    ⟨.error (lastErr.getD ⟨"Operation failed after retries".toList⟩), 0, []⟩
  | i, rem+1, _lastErr =>
    match op i with
    | .ok v => ⟨.ok v, 1, []⟩
    | .error e =>
      if isDetachedError e && decide (i < retries - 1) then
        if pageRef == some false then
          ⟨.error ⟨"Page is no longer accessible".toList⟩, 1, [2000 * (i + 1)]⟩
        else
          let t := spoAux op retries pageRef (i+1) rem (some e)
          ⟨t.result, t.attempts + 1, 2000 * (i + 1) :: t.waits⟩
      else ⟨.error e, 1, []⟩

/-- `safePageOperation(operation, retries, pageRef)` (src/index.js lines
57-94; the same function appears in src/lib/utils.js lines 26-64). -/
def safePageOperation (op : Nat → Except JsError α) (retries : Nat)
    (pageRef : Option Bool) : SpoTrace α :=
  spoAux op retries pageRef 0 retries none

/-! ### Selector Resolver -/

/-- The element properties inspected by the visibility predicate of
`getInputSelector` (src/index.js lines 126-138): computed style
`display`/`visibility`, whether `offsetParent` is non-null, and the
bounding-box dimensions. -/
structure ElemStyle where
  display : List Char
  visibility : List Char
  offsetParent : Bool
  width : Nat
  height : Nat
  deriving DecidableEq

/-- The uniform visibility predicate evaluated in page context
(src/index.js lines 130-137). -/
def isVisibleStyle (e : ElemStyle) : Bool :=
  e.display != "none".toList && e.visibility != "hidden".toList &&
  e.offsetParent && e.width > 0 && e.height > 0

/-- The candidate loop of `getInputSelector` (src/index.js lines 118-155)
over an arbitrary candidate list: for each selector, `page.$(selector)`
existence (`page sel` is `none` when the element is absent), then the
visibility predicate; the first candidate passing both is returned,
otherwise the loop continues; `null` after exhaustion. -/
def resolveFirstVisible (page : List Char → Option ElemStyle) :
    List (List Char) → Option (List Char)
  | [] => none
  | sel :: rest =>
    match page sel with
    | none => resolveFirstVisible page rest
    | some e =>
      if isVisibleStyle e then some sel else resolveFirstVisible page rest

/-- `selector.startsWith('//')` (src/index.js line 359). -/
def isXPathSel : List Char → Bool
  | '/' :: '/' :: _ => true
  | _ => false

/-- The candidate loop of `getButtonSelector` (src/index.js lines
356-378): for each selector, only an existence check is performed —
`page.$x(selector).length > 0` for XPath candidates and
`page.$(selector) !== null` for CSS candidates; no visibility predicate
is applied.  The first existing candidate is returned. -/
def resolveButton (pageCss : List Char → Option ElemStyle)
    (pageXPath : List Char → List ElemStyle) :
    List (List Char) → Option (List Char)
  | [] => none
  | sel :: rest =>
    if (if isXPathSel sel then (pageXPath sel).length > 0
        else (pageCss sel).isSome) then some sel
    else resolveButton pageCss pageXPath rest

/-- `placeholderText` (src/index.js lines 98-99). -/
def placeholderText : List Char :=
  ("To rewrite text, enter or paste it here and press \"Paraphrase.\"").toList

/-- The literal input candidate list of `getInputSelector` (src/index.js
lines 101-116). -/
def inputSelectors : List (List Char) :=
  [ "#inputText".toList,
    "#paraphraser-input-box".toList,
    "[data-testid=\"input-text-box\"]".toList,
    "[data-testid=\"paraphraser-input-box\"]".toList,
    "textarea[placeholder*=\"paste\" i]".toList,
    "textarea[placeholder*=\"Paraphrase\" i]".toList,
    "div[contenteditable=\"true\"][placeholder*=\"paste\" i]".toList,
    "div[contenteditable=\"true\"][placeholder*=\"Paste\" i]".toList,
    "div[placeholder*=\"paste\" i]".toList,
    "div[placeholder=\"".toList ++ placeholderText ++ "\"]".toList,
    "[aria-label*=\"paste\" i]".toList,
    "[aria-label*=\"input\" i]".toList,
    ".paraphraser-input-box".toList,
    "[role=\"textbox\"]".toList ]

/-- `getInputSelector(page)` (src/index.js lines 97-156).  The button
candidate list of `getButtonSelector` is analogous literal data (lines
344-354, including one XPath entry) and is resolved by `resolveButton`. -/
def getInputSelector (page : List Char → Option ElemStyle) : Option (List Char) :=
  resolveFirstVisible page inputSelectors

/-! ### Text Injection Engine (verification step of `inputString`) -/

/-- The verification decision of `inputString` (src/index.js lines
300-304; identically src/lib/utils.js lines 401-408): after direct
assignment, `inputContent` is read back (`none` models JS `null`); the
clipboard-paste fallback is invoked unless `inputContent` is truthy
(non-null and non-empty) and its trimmed length is at least 90% of the
intended text's trimmed length.  The JS expression compares against
`text.trim().length * 0.9`; the factor `0.9` is modelled as the exact
rational 9/10 (`10 * readback ≥ 9 * intended`), which agrees with the
float computation except possibly within one ulp of the exact 90%
boundary. -/
def inputStringUsesFallback (text : List Char) (readBack : Option (List Char)) : Bool :=
  match readBack with
  | none => true
  | some c => !(c != [] && decide (10 * (jsTrim c).length ≥ 9 * (jsTrim text).length))

/-! ### Top-level `quillbot` control flow -/

/-- Environment oracle for one `quillbot` run: the per-segment outcomes
of the browser interaction (src/index.js lines 820-925).  `crash i` means
an error is thrown while processing segment `i` (re-thrown at line 923 to
the top-level catch); `buttonFound i` is whether `getButtonSelector`
returns a selector; `submitOk i` the result of `submitForm`;
`rawOutput i` the content read by `getOutputContent` from the output
element (`none` = element missing). -/
structure QbEnv where
  inputFound : Bool
  crash : Nat → Bool
  buttonFound : Nat → Bool
  submitOk : Nat → Bool
  rawOutput : Nat → Option (List Char)

/-- `getOutputContent` (src/index.js lines 493-515): `null` when the
element is missing or its trimmed content is empty, else the trimmed
content. -/
def getOutputContent (raw : Option (List Char)) : Option (List Char) :=
  match raw with
  | none => none
  | some c => if jsTrim c = [] then none else some (jsTrim c)

/-- The per-segment loop of `quillbot` (src/index.js lines 855-925) from
segment `i` with accumulated `output`: any failure (`crash`, missing
button selector, failed submission, missing output content) makes the
call return `null` (`none`), discarding `output`; on success of all
segments the trimmed accumulation is returned (lines 927-931). -/
def runParts (env : QbEnv) : List (List Char) → Nat → List Char → Option (List Char)
  | [], _, out => some (jsTrim out)
  | _ :: rest, i, out =>
    if env.crash i then none
    else if !env.buttonFound i then none
    else if !env.submitOk i then none
    else
      match getOutputContent (env.rawOutput i) with
      | none => none
      | some oc => runParts env rest (i + 1) (out ++ oc ++ [' '])

/-- `quillbot(text, options)` (src/index.js lines 638-967), abstracted
over the browser environment.  Outer `none`: the call never returns (the
splitting loop diverges).  `some none`: the call returns `null` — the
splitter's `TypeError` and every mid-run failure are caught by the
top-level `try/catch` (lines 932-945) or returned as `null` directly
(lines 843-850, 887-899, 909-914), never raising to the caller.
`some (some s)`: the call returns the paraphrased string `s`. -/
def quillbot (text : List Char) (env : QbEnv) : Option (Option (List Char)) :=
  match splitParts text with
  | .typeError => some none
  | .diverges => none
  | .parts parts =>
    if !env.inputFound then some none
    else some (runParts env parts 0 [])

/-! ### Concrete data used in witnesses and counterexamples -/

/-- 126 words `a`, separated by single spaces, containing no period. -/
def badC1 : List Char := (List.replicate 125 ['a', ' ']).flatten ++ ['a']

/-- `"(((((aa. b. "` followed by 125 words `c`: 127 words, of which the
first sits behind five non-word characters. -/
def badC3 : List Char := "(((((aa. b. ".toList ++ (List.replicate 125 ['c', ' ']).flatten

def partC3a : List Char := "aa. b.".toList

def partC3b : List Char := "a. b.".toList

def partC3c : List Char := (List.replicate 124 ['c', ' ']).flatten ++ ['c']

def hwList : List Char := "hello world".toList

def bangList : List Char := "!!!".toList

/-- The wait sequence `2000*(j+1), 2000*(j+2), ...` of `k` retries
starting at attempt index `j` (src/index.js line 73). -/
def waitsList : Nat → Nat → List Nat
  | _, 0 => []
  | j, k+1 => 2000 * (j + 1) :: waitsList (j + 1) k

/-- An operation that fails with a transient-classified error once, then
succeeds with value 7. -/
def opW : Nat → Except JsError Nat :=
  fun t => if t = 0 then .error ⟨"detached frame".toList⟩ else .ok 7

/-- An operation that always fails with a non-transient error. -/
def boomOp : Nat → Except JsError Nat := fun _ => .error ⟨"boom".toList⟩

/-- A present element that is hidden (`display: none`). -/
def hiddenElem : ElemStyle := ⟨"none".toList, "visible".toList, true, 100, 40⟩

/-- A present, visible element. -/
def visibleElem : ElemStyle := ⟨"block".toList, "visible".toList, true, 100, 40⟩

/-- A page on which candidate `#cand1` is present but hidden and
candidate `#cand2` is present and visible. -/
def pageW : List Char → Option ElemStyle := fun sel =>
  if sel = "#cand1".toList then some hiddenElem
  else if sel = "#cand2".toList then some visibleElem
  else none

def xpathW : List Char → List ElemStyle := fun _ => []

/-- An environment in which every per-segment step succeeds. -/
def envW : QbEnv :=
  ⟨true, fun _ => false, fun _ => true, fun _ => true, fun _ => some (" OUT ".toList)⟩

/-! ### Helper lemmas -/

theorem isJsWs_not_word {c : Char} (h : isJsWs c = true) : isWordChar c = false := by
  simp only [isJsWs, Bool.or_eq_true, beq_iff_eq] at h
  rcases h with ((((h | h) | h) | h) | h) | h <;> subst h <;> decide

theorem tokensAux_nonword_nil {t : List Char} (h : ∀ c ∈ t, isWordChar c = false) :
    ∀ acc, tokensAux t acc = tokensAux [] acc := by
  induction t with
  | nil => intro acc; rfl
  | cons c l ih =>
    intro acc
    have hc : isWordChar c = false := h c (List.mem_cons_self c l)
    have hl : ∀ x ∈ l, isWordChar x = false := fun x hx => h x (List.mem_cons_of_mem c hx)
    cases acc with
    | none => simp [tokensAux, hc, ih hl none]
    | some tk => simp [tokensAux, hc, ih hl none]

theorem tokensAux_append_nonword {t : List Char} (h : ∀ c ∈ t, isWordChar c = false) :
    ∀ (s : List Char) (acc : Option (List Char)),
      tokensAux (s ++ t) acc = tokensAux s acc := by
  intro s
  induction s with
  | nil => intro acc; simpa using tokensAux_nonword_nil h acc
  | cons c s ih =>
    intro acc
    cases hw : isWordChar c <;> cases acc <;>
      simp [List.cons_append, tokensAux, hw, ih]

theorem tokens_trimLeft (s : List Char) : tokens (trimLeft s) = tokens s := by
  unfold trimLeft
  induction s with
  | nil => rfl
  | cons c l ih =>
    cases hw : isJsWs c
    · simp [List.dropWhile, hw]
    · have hnw : isWordChar c = false := isJsWs_not_word hw
      simp only [List.dropWhile, hw]
      rw [ih]
      simp [tokens, tokensAux, hnw]

theorem tokens_trimRight (s : List Char) : tokens (trimRight s) = tokens s := by
  have h1 : s.reverse.takeWhile isJsWs ++ s.reverse.dropWhile isJsWs = s.reverse :=
    List.takeWhile_append_dropWhile isJsWs s.reverse
  have hdecomp : s = trimRight s ++ (s.reverse.takeWhile isJsWs).reverse := by
    calc s = s.reverse.reverse := (List.reverse_reverse s).symm
    _ = (s.reverse.takeWhile isJsWs ++ s.reverse.dropWhile isJsWs).reverse := by rw [h1]
    _ = trimRight s ++ (s.reverse.takeWhile isJsWs).reverse := by
        rw [List.reverse_append]; rfl
  have hws : ∀ c ∈ (s.reverse.takeWhile isJsWs).reverse, isWordChar c = false := by
    intro c hc
    rw [List.mem_reverse] at hc
    exact isJsWs_not_word (List.mem_takeWhile_imp hc)
  conv_rhs => rw [hdecomp]
  exact (tokensAux_append_nonword hws (trimRight s) none).symm

theorem tokens_jsTrim (s : List Char) : tokens (jsTrim s) = tokens s := by
  unfold jsTrim
  rw [tokens_trimRight, tokens_trimLeft]

theorem lastDotSucc_eq_zero : ∀ {m : List Char}, '.' ∉ m → lastDotSucc m = 0 := by
  intro m
  induction m with
  | nil => intro _; rfl
  | cons c l ih =>
    intro h
    rw [List.mem_cons] at h
    push_neg at h
    obtain ⟨h1, h2⟩ := h
    have hc : (c == '.') = false := by
      simp only [beq_eq_false_iff_ne]
      exact fun e => h1 (e.symm)
    simp [lastDotSucc, ih h2, hc]

/-- Once an iteration of the splitting loop produces an empty trimmed
part, the loop state never changes again: the loop diverges. -/
theorem splitLoop_diverges_of_stuck {s : List Char}
    (hcnt : (tokens s).length > numberOfCharacters)
    {p0 : List Char} (htr : truncate s numberOfCharacters = some p0)
    (hnil : jsTrim p0 = []) :
    ∀ fuel acc, splitLoop fuel s acc = .diverges := by
  intro fuel
  induction fuel with
  | zero => intro acc; rfl
  | succ n ih =>
    intro acc
    have hne : (tokens s).isEmpty = false := by
      cases h : tokens s
      · rw [h] at hcnt; simp [numberOfCharacters] at hcnt
      · rfl
    simp only [splitLoop, hne, Bool.false_eq_true, if_false]
    rw [if_pos hcnt, htr]
    simp only [hnil, List.length_nil, List.drop_zero]
    exact ih (acc ++ [[]])

theorem waitsList_length : ∀ k j, (waitsList j k).length = k := by
  intro k
  induction k with
  | zero => intro j; rfl
  | succ m ih => intro j; simp [waitsList, ih (j + 1)]

theorem waitsList_lb : ∀ k j x, x ∈ waitsList j k → 2000 * (j + 1) ≤ x := by
  intro k
  induction k with
  | zero => intro j x hx; simp [waitsList] at hx
  | succ m ih =>
    intro j x hx
    simp only [waitsList, List.mem_cons] at hx
    rcases hx with h | h
    · omega
    · have := ih (j + 1) x h
      omega

theorem waitsList_pairwise : ∀ k j, (waitsList j k).Pairwise (· < ·) := by
  intro k
  induction k with
  | zero => intro j; exact List.Pairwise.nil
  | succ m ih =>
    intro j
    refine List.Pairwise.cons ?_ (ih (j + 1))
    intro x hx
    have := waitsList_lb m (j + 1) x hx
    omega

/-- Shape of a `safePageOperation` run in which attempts `j`, ...,
`j+k-1` fail with transient errors and attempt `j+k` succeeds, within
the remaining budget. -/
theorem spoAux_ok {α : Type} (op : Nat → Except JsError α) (retries : Nat)
    (pageRef : Option Bool) (v : α) (halive : pageRef ≠ some false) :
    ∀ k j rem lastErr,
      (∀ t, t < k → ∃ e, op (j + t) = .error e ∧ isDetachedError e = true) →
      op (j + k) = .ok v → j + k < retries → k < rem →
      spoAux op retries pageRef j rem lastErr = ⟨.ok v, k + 1, waitsList j k⟩ := by
  intro k
  induction k with
  | zero =>
    intro j rem lastErr _hf hs _hb hr
    obtain ⟨r, rfl⟩ : ∃ r, rem = r + 1 := ⟨rem - 1, by omega⟩
    have hs' : op j = .ok v := hs
    simp only [spoAux, hs']
    rfl
  | succ m ih =>
    intro j rem lastErr hf hs hb hr
    obtain ⟨r, rfl⟩ : ∃ r, rem = r + 1 := ⟨rem - 1, by omega⟩
    obtain ⟨e, he, hde⟩ := hf 0 (by omega)
    have he' : op j = .error e := he
    have hcond : (isDetachedError e && decide (j < retries - 1)) = true := by
      rw [hde]
      simp only [Bool.true_and, decide_eq_true_eq]
      omega
    have hpr : (pageRef == some false) = false := by
      cases pageRef with
      | none => rfl
      | some b =>
        cases b
        · exact absurd rfl halive
        · rfl
    have hrec : spoAux op retries pageRef (j + 1) r (some e) =
        ⟨.ok v, m + 1, waitsList (j + 1) m⟩ := by
      refine ih (j + 1) r (some e) ?_ ?_ (by omega) (by omega)
      · intro t ht
        obtain ⟨e', he'', hd''⟩ := hf (t + 1) (by omega)
        exact ⟨e', by rw [show j + 1 + t = j + (t + 1) by omega]; exact he'', hd''⟩
      · rw [show j + 1 + m = j + (m + 1) by omega]
        exact hs
    simp only [spoAux, he', hcond, if_true, hpr, Bool.false_eq_true, if_false, hrec]
    rfl

/-- A successful `runParts` traversal passes every per-segment check. -/
theorem runParts_ok (env : QbEnv) :
    ∀ (l : List (List Char)) (i : Nat) (out s : List Char),
      runParts env l i out = some s →
      ∀ t, t < l.length →
        env.crash (i + t) = false ∧ env.buttonFound (i + t) = true ∧
        env.submitOk (i + t) = true ∧ getOutputContent (env.rawOutput (i + t)) ≠ none := by
  intro l
  induction l with
  | nil => intro i out s _h t ht; simp at ht
  | cons p rest ih =>
    intro i out s h t ht
    simp only [runParts] at h
    cases hcr : env.crash i <;> rw [hcr] at h
    case true => simp at h
    cases hbf : env.buttonFound i <;> rw [hbf] at h
    case false => simp at h
    cases hsm : env.submitOk i <;> rw [hsm] at h
    case false => simp at h
    simp only [Bool.not_true, Bool.false_eq_true, if_false] at h
    cases ho : getOutputContent (env.rawOutput i) <;> rw [ho] at h
    case none => simp at h
    case some oc =>
      change runParts env rest (i + 1) (out ++ oc ++ [' ']) = some s at h
      cases t with
      | zero =>
        simp only [Nat.add_zero]
        exact ⟨hcr, hbf, hsm, by rw [ho]; exact fun hc => Option.noConfusion hc⟩
      | succ u =>
        have hu : u < rest.length := by simpa using ht
        have := ih (i + 1) (out ++ oc ++ [' ']) s h u hu
        rw [show i + (u + 1) = i + 1 + u by omega]
        exact this

/-! ### Claims -/

/-- Claim C1 (code bug): the claim says the splitting loop terminates on
every input whose word count exceeds the limit.  On the 126-word,
period-free input `badC1` the loop never terminates: `truncate` yields
the empty string (no period in the prefix), so `str` never shrinks and no
amount of fuel makes the loop finish — the final segment is never
emitted. -/
theorem splitter_diverges_on_periodless_input :
    (tokens badC1).length = 126 ∧
    (∀ fuel acc, splitLoop fuel badC1 acc = SplitOutcome.diverges) ∧
    splitParts badC1 = SplitOutcome.diverges := by
  have h1 : (tokens badC1).length = 126 := by decide
  have htr : truncate badC1 numberOfCharacters = some [] := by decide
  have hgt : (tokens badC1).length > numberOfCharacters := by rw [h1]; decide
  have hdiv := splitLoop_diverges_of_stuck hgt htr rfl
  refine ⟨h1, hdiv, ?_⟩
  have htrim : jsTrim badC1 = badC1 := by decide
  have hne : (tokens badC1).isEmpty = false := by
    cases h : tokens badC1
    · rw [h] at h1; simp at h1
    · rfl
  simp only [splitParts, htrim, hne, Bool.false_eq_true, if_false]
  rw [if_pos hgt]
  exact hdiv _ []

/-- Claim C2 (counterexample): on `"hello world"` with word limit 5 the
extracted prefix is the whole string and contains no period, yet
`truncate` emits the empty string, not the untruncated prefix. -/
theorem truncate_periodless_counterexample :
    firstMatch 5 hwList = some hwList ∧ ('.' ∈ hwList → False) ∧
    truncate hwList 5 = some [] ∧ truncate hwList 5 ≠ some hwList := by decide

/-- Claim C2 (amended): when the extracted prefix contains no
sentence-terminating period, `truncate` emits the empty string
(`lastIndexOf` is -1, so `slice(0, 0)`), not the untruncated prefix. -/
theorem truncate_periodless_returns_empty (s : List Char) (n : Nat) (m : List Char)
    (hlen : n < s.length) (hm : firstMatch n s = some m) (hdot : '.' ∉ m) :
    truncate s n = some [] := by
  unfold truncate
  rw [if_neg (by omega), hm]
  show some (m.take (lastDotSucc m)) = some []
  rw [lastDotSucc_eq_zero hdot]
  rfl

theorem truncate_periodless_returns_empty_witness :
    5 < hwList.length ∧ truncate hwList 5 = some [] :=
  ⟨by decide,
   truncate_periodless_returns_empty hwList 5 hwList (by decide) (by decide) (by decide)⟩

/-- Claim C3 (code bug): on the 127-word input `badC3`, whose first word
sits behind five non-word characters, `str.slice(part.length)` removes
the wrong span (the match offset is ignored), so the returned segments'
tokens are `aa, b, a, b, c×125` instead of the original `aa, b, c×125`:
token `b` is duplicated and a spurious token `a` (a remnant of `aa`)
appears. -/
theorem split_token_invariant_violated :
    (tokens badC3).length = 127 ∧
    splitParts badC3 = SplitOutcome.parts [partC3a, partC3b, partC3c] ∧
    tokens partC3a ++ tokens partC3b ++ tokens partC3c ≠ tokens badC3 :=
  ⟨by decide, by decide, by decide⟩

/-- Claim C4 (counterexample): the button resolver applies no visibility
predicate — with candidate 1 present but hidden and candidate 2 present
and visible it returns candidate 1, contradicting the claim that both
resolvers return the first present-and-visible candidate. -/
theorem button_resolver_hidden_counterexample :
    pageW ("#cand1".toList) = some hiddenElem ∧
    isVisibleStyle hiddenElem = false ∧
    pageW ("#cand2".toList) = some visibleElem ∧
    isVisibleStyle visibleElem = true ∧
    resolveButton pageW xpathW ["#cand1".toList, "#cand2".toList] =
      some ("#cand1".toList) ∧
    "#cand1".toList ≠ "#cand2".toList := by decide

/-- Claim C4 (amended): the input-field resolver returns the first
candidate that is present and passes the visibility predicate (skipping
a present-but-hidden first candidate), while the button resolver checks
existence only and returns the first present candidate regardless of
visibility. -/
theorem resolver_first_candidate_semantics :
    (∀ (page : List Char → Option ElemStyle) (c1 c2 : List Char)
        (rest : List (List Char)) (e1 e2 : ElemStyle),
        page c1 = some e1 → isVisibleStyle e1 = false →
        page c2 = some e2 → isVisibleStyle e2 = true →
        resolveFirstVisible page (c1 :: c2 :: rest) = some c2) ∧
    (∀ (pageCss : List Char → Option ElemStyle)
        (pageXPath : List Char → List ElemStyle)
        (c1 : List Char) (rest : List (List Char)) (e1 : ElemStyle),
        isXPathSel c1 = false → pageCss c1 = some e1 →
        resolveButton pageCss pageXPath (c1 :: rest) = some c1) := by
  constructor
  · intro page c1 c2 rest e1 e2 h1 h1v h2 h2v
    simp [resolveFirstVisible, h1, h1v, h2, h2v]
  · intro pageCss pageXPath c1 rest e1 hx he
    simp [resolveButton, hx, he]

theorem resolver_first_candidate_semantics_witness :
    resolveFirstVisible pageW ["#cand1".toList, "#cand2".toList] =
      some ("#cand2".toList) ∧
    resolveButton pageW xpathW ["#cand1".toList, "#cand2".toList] =
      some ("#cand1".toList) :=
  ⟨resolver_first_candidate_semantics.1 pageW ("#cand1".toList) ("#cand2".toList) []
      hiddenElem visibleElem (by decide) (by decide) (by decide) (by decide),
   resolver_first_candidate_semantics.2 pageW xpathW ("#cand1".toList)
      ["#cand2".toList] hiddenElem (by decide) (by decide)⟩

/-- Claim C5: an operation failing with transient-classified errors
exactly `k` times and then succeeding, under a retry budget greater than
`k` (and a live or absent page handle), makes `safePageOperation` return
the success value after `k + 1` invocations, with `k` waits of strictly
increasing duration. -/
theorem safePageOperation_transient_retries {α : Type}
    (op : Nat → Except JsError α) (v : α) (k retries : Nat) (pageRef : Option Bool)
    (hfail : ∀ t, t < k → ∃ e, op t = .error e ∧ isDetachedError e = true)
    (hsucc : op k = .ok v) (hbudget : k < retries) (halive : pageRef ≠ some false) :
    (safePageOperation op retries pageRef).result = .ok v ∧
    (safePageOperation op retries pageRef).attempts = k + 1 ∧
    (safePageOperation op retries pageRef).waits.length = k ∧
    (safePageOperation op retries pageRef).waits.Pairwise (· < ·) := by
  have h := spoAux_ok op retries pageRef v halive k 0 retries none
    (fun t ht => by simpa using hfail t ht)
    (by simpa using hsucc) (by omega) (by omega)
  rw [safePageOperation, h]
  exact ⟨rfl, rfl, waitsList_length k 0, waitsList_pairwise k 0⟩

theorem safePageOperation_transient_retries_witness :
    (safePageOperation opW 3 none).result = .ok 7 ∧
    (safePageOperation opW 3 none).attempts = 2 ∧
    (safePageOperation opW 3 none).waits.length = 1 ∧
    (safePageOperation opW 3 none).waits.Pairwise (· < ·) :=
  safePageOperation_transient_retries opW 7 1 3 none
    (fun t ht => by
      have h0 : t = 0 := by omega
      subst h0
      exact ⟨⟨"detached frame".toList⟩, rfl, by decide⟩)
    rfl (by omega) (by decide)

/-- Claim C6 (counterexample): with a retry budget of 0 the operation's
non-transient error is not propagated at all — the wrapper never invokes
the operation and throws the generic budget-exhausted error instead, so
the claim does not hold "regardless of the retry budget". -/
theorem safePageOperation_zero_budget_counterexample :
    (safePageOperation boomOp 0 none).attempts = 0 ∧
    (safePageOperation boomOp 0 none).result =
      .error ⟨"Operation failed after retries".toList⟩ ∧
    JsError.mk ("Operation failed after retries".toList) ≠ ⟨"boom".toList⟩ :=
  ⟨rfl, rfl, by decide⟩

/-- Claim C6 (amended): for every retry budget of at least 1, an
operation failing with a non-transient error has that error propagated
after the first attempt, with zero retries and zero waits. -/
theorem safePageOperation_permanent_propagates {α : Type}
    (op : Nat → Except JsError α) (e : JsError) (retries : Nat) (pageRef : Option Bool)
    (h0 : op 0 = .error e) (hnd : isDetachedError e = false) (hr : 1 ≤ retries) :
    (safePageOperation op retries pageRef).result = .error e ∧
    (safePageOperation op retries pageRef).attempts = 1 ∧
    (safePageOperation op retries pageRef).waits = [] := by
  obtain ⟨r, rfl⟩ : ∃ r, retries = r + 1 := ⟨retries - 1, by omega⟩
  have hstep : spoAux op (r + 1) pageRef 0 (r + 1) none = ⟨.error e, 1, []⟩ := by
    simp only [spoAux, h0, hnd, Bool.false_and, Bool.false_eq_true, if_false]
  rw [safePageOperation, hstep]
  exact ⟨rfl, rfl, rfl⟩

theorem safePageOperation_permanent_propagates_witness :
    (safePageOperation boomOp 2 none).result = .error ⟨"boom".toList⟩ ∧
    (safePageOperation boomOp 2 none).attempts = 1 ∧
    (safePageOperation boomOp 2 none).waits = [] :=
  safePageOperation_permanent_propagates boomOp ⟨"boom".toList⟩ 2 none rfl
    (by decide) (by omega)

/-- Claim C7: verification after direct assignment accepts exactly when
the read-back content is truthy and its trimmed length is at least 90%
(exact rational 9/10) of the intended text's trimmed length; at a 95%
read-back the clipboard-paste fallback is not invoked, at a 50%
read-back it is. -/
theorem inputString_verification_threshold (text c : List Char) :
    (inputStringUsesFallback text (some c) = false ↔
      c ≠ [] ∧ 9 * (jsTrim text).length ≤ 10 * (jsTrim c).length) ∧
    (20 * (jsTrim c).length = 19 * (jsTrim text).length → jsTrim text ≠ [] →
      inputStringUsesFallback text (some c) = false) ∧
    (2 * (jsTrim c).length = (jsTrim text).length → jsTrim text ≠ [] →
      inputStringUsesFallback text (some c) = true) := by
  have hchar : inputStringUsesFallback text (some c) = false ↔
      c ≠ [] ∧ 9 * (jsTrim text).length ≤ 10 * (jsTrim c).length := by
    unfold inputStringUsesFallback
    simp only [Bool.not_eq_false', Bool.and_eq_true, bne_iff_ne, ne_eq,
      decide_eq_true_eq, ge_iff_le]
  refine ⟨hchar, ?_, ?_⟩
  · intro h20 hne
    have hL : (jsTrim text).length ≠ 0 := fun h => hne (List.length_eq_zero.mp h)
    have hr : (jsTrim c).length ≠ 0 := by omega
    have hcne : c ≠ [] := by
      intro hc
      subst hc
      exact hr rfl
    rw [hchar]
    exact ⟨hcne, by omega⟩
  · intro h2 hne
    have hL : (jsTrim text).length ≠ 0 := fun h => hne (List.length_eq_zero.mp h)
    cases hfb : inputStringUsesFallback text (some c)
    · exfalso
      obtain ⟨-, hle⟩ := hchar.mp hfb
      omega
    · rfl

theorem inputString_verification_threshold_witness :
    inputStringUsesFallback (List.replicate 20 'a') (some (List.replicate 19 'a')) =
      false ∧
    inputStringUsesFallback (List.replicate 20 'a') (some (List.replicate 10 'a')) =
      true :=
  ⟨(inputString_verification_threshold (List.replicate 20 'a')
      (List.replicate 19 'a')).2.1 (by decide) (by decide),
   (inputString_verification_threshold (List.replicate 20 'a')
      (List.replicate 10 'a')).2.2 (by decide) (by decide)⟩

/-- Claim C8: whenever `quillbot` returns a non-null result, the input
field was found and every segment passed every step (no crash, button
found, submission succeeded, output present) — equivalently, on any
mid-run failure the call returns `null` and all accumulated per-segment
output is discarded; the failure branches return `null` rather than
raising. -/
theorem quillbot_no_partial_result (text : List Char) (env : QbEnv) (s : List Char)
    (h : quillbot text env = some (some s)) :
    env.inputFound = true ∧
    ∃ parts, splitParts text = SplitOutcome.parts parts ∧
      ∀ t, t < parts.length →
        env.crash t = false ∧ env.buttonFound t = true ∧
        env.submitOk t = true ∧ getOutputContent (env.rawOutput t) ≠ none := by
  unfold quillbot at h
  cases hsp : splitParts text <;> rw [hsp] at h
  case typeError => simp at h
  case diverges => simp at h
  case parts l =>
    change (if !env.inputFound then some none else some (runParts env l 0 [])) =
      some (some s) at h
    cases hif : env.inputFound <;> rw [hif] at h
    case false => simp at h
    case true =>
      simp only [Bool.not_true, Bool.false_eq_true, if_false] at h
      have hrun : runParts env l 0 [] = some s := Option.some.inj h
      refine ⟨rfl, l, rfl, ?_⟩
      intro t ht
      have := runParts_ok env l 0 [] s hrun t ht
      simpa using this

theorem quillbot_no_partial_result_witness :
    quillbot ("hi".toList) envW = some (some ("OUT".toList)) ∧
    envW.inputFound = true := by
  have hq : quillbot ("hi".toList) envW = some (some ("OUT".toList)) := by decide
  exact ⟨hq, (quillbot_no_partial_result ("hi".toList) envW ("OUT".toList) hq).1⟩

/-- Claim C9 (counterexample): the input `"!!!"` has word count 0 (at
most the limit), yet the splitter does not return one segment equal to
the trimmed input — `str.match(/(\w+)/g)` is `null` and reading its
`.length` throws a `TypeError`. -/
theorem split_tokenless_counterexample :
    (tokens bangList).length = 0 ∧
    splitParts bangList = SplitOutcome.typeError ∧
    splitParts bangList ≠ SplitOutcome.parts [jsTrim bangList] := by decide

/-- Claim C9 (amended): for every input containing at least one word
token and whose word count is at most the limit, the splitter returns
exactly one segment equal to the trimmed input. -/
theorem split_single_segment (text : List Char)
    (h1 : 1 ≤ (tokens text).length) (h2 : (tokens text).length ≤ numberOfCharacters) :
    splitParts text = SplitOutcome.parts [jsTrim text] := by
  have ht : tokens (jsTrim text) = tokens text := tokens_jsTrim text
  have hne : (tokens (jsTrim text)).isEmpty = false := by
    rw [ht]
    cases h : tokens text
    · rw [h] at h1; simp at h1
    · rfl
  have hng : ¬((tokens (jsTrim text)).length > numberOfCharacters) := by
    rw [ht]; omega
  simp only [splitParts, hne, Bool.false_eq_true, if_false]
  rw [if_neg hng]

theorem split_single_segment_witness :
    splitParts hwList = SplitOutcome.parts [jsTrim hwList] :=
  split_single_segment hwList (by decide) (by decide)

/-- Claim C10: with a retry budget of 0 the loop body is skipped
entirely: the operation is never invoked (0 attempts, no waits) and the
generic budget-exhausted error is thrown, for every operation and page
handle. -/
theorem safePageOperation_zero_budget_skips (α : Type)
    (op : Nat → Except JsError α) (pageRef : Option Bool) :
    safePageOperation op 0 pageRef =
      ⟨.error ⟨"Operation failed after retries".toList⟩, 0, []⟩ := rfl

end Quillbot
